import Mathlib

/-!
Verification of the pagez language engine (tokenizer, three-state parser,
decorator/macro resolver) against its natural-language specification.
The definitions below are a shallow embedding of the canonical variant of
the engine (the three-buffer parser and ordered-process resolver).
JavaScript object identity of decorator records is modelled by a numeric
id field assigned at creation; JavaScript property maps are modelled as
association lists with first-match lookup and in-place update.
-/

namespace Pagez

instance {ε α : Type} [DecidableEq ε] [DecidableEq α] : DecidableEq (Except ε α) := by
  intro a b
  cases a <;> cases b
  case error.error e1 e2 =>
    exact if h : e1 = e2 then .isTrue (by rw [h]) else .isFalse (by intro hc; cases hc; exact h rfl)
  case error.ok _ _ => exact .isFalse (by intro hc; cases hc)
  case ok.error _ _ => exact .isFalse (by intro hc; cases hc)
  case ok.ok a1 a2 =>
    exact if h : a1 = a2 then .isTrue (by rw [h]) else .isFalse (by intro hc; cases hc; exact h rfl)

/-- Runtime values stored in property maps: the parser only produces string
values, the engine itself stores boolean flags. -/
inductive Value
  | str (s : String)
  | bool (b : Bool)
deriving DecidableEq, Repr

/-- JavaScript truthiness of an optional property value: a missing key and
the empty string are falsy. -/
def truthy : Option Value → Bool
  | none => false
  | some (.str s) => !(s == "")
  | some (.bool b) => b

/-- A JavaScript object used as a string-keyed map, in insertion order. -/
abbrev Props := List (String × Value)

def getProp (p : Props) (k : String) : Option Value :=
  (p.find? (fun kv => kv.1 == k)).map (fun kv => kv.2)

/-- JavaScript property assignment: overwrite in place when the key exists,
append otherwise. -/
def setProp (p : Props) (k : String) (v : Value) : Props :=
  if p.any (fun kv => kv.1 == k) then
    p.map (fun kv => if kv.1 == k then (k, v) else kv)
  else p ++ [(k, v)]

/-- A source span used for diagnostics.  The column is an integer because the
tokenizer reconstructs start columns by subtraction and can go negative on
tokens spanning a newline. -/
structure Loc where
  col : Int
  row : Nat
  len : Nat
deriving DecidableEq, Repr

/-- A named text buffer. -/
structure Source where
  name : String
  body : String
deriving DecidableEq, Repr

/-- Global replacement of CRLF by LF, character by character from the
left, as the global regex replace does. -/
def normalizeCRLF : List Char → List Char
  | [] => []
  | '\r' :: '\n' :: rest => '\n' :: normalizeCRLF rest
  | c :: rest => c :: normalizeCRLF rest

/-- Source construction normalizes CRLF line endings to LF. -/
def Source.make (name body : String) : Source :=
  ⟨name, ⟨normalizeCRLF body.data⟩⟩

/-- String prefix test over the character list. -/
def strStartsWith (s pre : String) : Bool := pre.data.isPrefixOf s.data

/-- String suffix test over the character list. -/
def strEndsWith (s suf : String) : Bool := suf.data.isSuffixOf s.data

/-- A lexical token; `eof` models the distinguished end-of-input subclass,
whose value is a single space. -/
structure Tok where
  val : String
  loc : Loc
  eof : Bool
deriving DecidableEq, Repr

def Tok.isNamespace (t : Tok) : Bool :=
  strStartsWith t.val "(" && strEndsWith t.val ")"

def Tok.isPage (t : Tok) : Bool :=
  strStartsWith t.val "[" && strEndsWith t.val "]"

/-- Characters matched by the identifier body class [a-z0-9_-] (case
insensitive). -/
def identChar (c : Char) : Bool :=
  ('a' ≤ c && c ≤ 'z') || ('A' ≤ c && c ≤ 'Z') || ('0' ≤ c && c ≤ '9')
    || c == '_' || c == '-'

/-- The identifier shape: an optional leading hash, then one or more
identifier characters. -/
def Tok.isIdentifier (t : Tok) : Bool :=
  match t.val.data with
  | [] => false
  | '#' :: rest => !rest.isEmpty && rest.all identChar
  | cs => cs.all identChar

def Tok.isString (t : Tok) : Bool :=
  strStartsWith t.val "\"" && strEndsWith t.val "\""

/-- The operator character class: bang, equals, dash, at, percent, braces and
angle brackets. -/
def isOpChar (c : Char) : Bool :=
  c == '!' || c == '=' || c == '-' || c == '@' || c == '%'
    || c == '\x7b' || c == '\x7d' || c == '<' || c == '>'

/-- The whitespace class of JavaScript regular expressions. -/
def jsWS (c : Char) : Bool :=
  c == ' ' || c == '\t' || c == '\n' || c == '\x0b' || c == '\x0c' || c == '\r'
    || c == '\u00a0' || c == '\u1680' || ('\u2000' ≤ c && c ≤ '\u200a')
    || c == '\u2028' || c == '\u2029' || c == '\u202f' || c == '\u205f'
    || c == '\u3000' || c == '\ufeff'

/-- Drops the first and last character, as slice(1,-1) does. -/
def sliceInner (s : String) : String :=
  ⟨(s.data.drop 1).dropLast⟩

/-- Mutable tokenizer state: emitted tokens, the pending buffer, and the
character cursor. -/
structure TkSt where
  toks : List Tok
  buf : String
  col : Int
  row : Nat
deriving Repr

/-- Emit a token whose start column is reconstructed from the current
column and the token length. -/
def pushtk (st : TkSt) (tk : String) : TkSt :=
  { st with toks := st.toks ++
      [{ val := tk
         loc := { col := st.col - ((tk.length - 1 : Nat) : Int), row := st.row, len := tk.length }
         eof := false }] }

/-- Flush the pending buffer (with an optional final character) when it is
nonempty. -/
def pushtoken (st : TkSt) (tt : String) : TkSt :=
  if st.buf == "" then st
  else { pushtk st (st.buf ++ tt) with buf := "" }

/-- One tokenizer step over a single character. -/
def tkStep (st : TkSt) (chr : Char) : TkSt :=
  let st1 :=
    if st.buf.data.head? == some '"' then
      if chr == '"' then pushtoken st (String.singleton chr)
      else { st with buf := ⟨st.buf.data ++ [chr]⟩ }
    else if st.buf.data.head? == some '[' then
      if chr == ']' then pushtoken st (String.singleton chr)
      else { st with buf := ⟨st.buf.data ++ [chr]⟩ }
    else if st.buf.data.head? == some '(' then
      if chr == ')' then pushtoken st (String.singleton chr)
      else { st with buf := ⟨st.buf.data ++ [chr]⟩ }
    else if isOpChar chr then
      pushtk (pushtoken st "") (String.singleton chr)
    else if jsWS chr then
      let sA := { st with col := st.col - 1 }
      let sB := pushtoken sA ""
      { sB with col := sB.col + 1 }
    else { st with buf := ⟨st.buf.data ++ [chr]⟩ }
  if chr == '\n' then { st1 with col := 0, row := st1.row + 1 }
  else { st1 with col := st1.col + 1 }

/-- The tokenizer: scan every character, flush the pending buffer, then
append the end-of-input token. -/
def tokenize (src : Source) : List Tok :=
  let st := src.body.data.foldl tkStep ⟨[], "", 0, 0⟩
  let st2 := pushtoken st ""
  st2.toks ++ [{ val := " ", loc := { col := st2.col, row := st2.row, len := 1 }, eof := true }]

/-- A decorator record.  The `id` field models JavaScript object identity:
every record created by the parser or the resolver gets a fresh id. -/
structure Dec where
  id : Nat
  loc : Loc
  name : String
  args : List Value
  props : Props
deriving DecidableEq, Repr

/-- The contents of a decorator record without its identity, as returned by
macro implementations (name, positional args, named props, location). -/
structure DecStub where
  loc : Loc
  name : String
  args : List Value
  props : Props
deriving DecidableEq, Repr

def Dec.core (d : Dec) : DecStub :=
  ⟨d.loc, d.name, d.args, d.props⟩

def DecStub.withId (s : DecStub) (id : Nat) : Dec :=
  ⟨id, s.loc, s.name, s.args, s.props⟩

structure Page where
  loc : Loc
  name : String
  path : Option String
  props : Props
  decorators : List Dec
deriving DecidableEq, Repr

structure Namespace where
  loc : Loc
  name : String
  props : Props
  pages : List Page
deriving DecidableEq, Repr

/-- Parser error messages, one constructor per message raised by the
source. -/
inductive PMsg
  | missingNamespaceName
  | expectedLBrace
  | expectedNamespaceDecl
  | expectedEq
  | expectedIdentifier
  | cantAddParams
  | expectedDecsBeforeGroup
  | unexpectedNamespace
  | unexpectedPage
  | unexpectedEOF
  | unexpectedToken
  | expectedString
  | expectedExpression
  | variablesNotSupported
  | invalidValue
  | invalidState
deriving DecidableEq, Repr

/-- A parse error carries the offending location; `oob` models the crash of
an out-of-bounds token access, `fuelOut` is an artifact of the fuel-driven
loop and is unreachable for end-terminated token streams. -/
inductive PErr
  | located (loc : Loc) (msg : PMsg)
  | oob
  | fuelOut
deriving DecidableEq, Repr

/-- Resolution of a value token: strings yield their unquoted content, bare
identifiers and anything else are rejected. -/
def resolveValue (t : Tok) : Except PErr Value :=
  if t.eof then .error (.located t.loc .expectedExpression)
  else if t.isString then .ok (.str (sliceInner t.val))
  else if t.isIdentifier then .error (.located t.loc .variablesNotSupported)
  else .error (.located t.loc .invalidValue)

inductive ParseState
  | top
  | namespaceB
  | pageB
deriving DecidableEq, Repr

/-- The parser state: the machine state, the open namespace and page, the
three decorator buffers, the closed namespaces, and the id counter. -/
structure PSt where
  state : ParseState
  ns : Option Namespace
  page : Option Page
  decs : List Dec
  groupDecs : List Dec
  globDecs : List Dec
  nss : List Namespace
  nextId : Nat
deriving DecidableEq, Repr

inductive StepRes
  | done (nss : List Namespace)
  | cont (i : Nat) (st : PSt)
deriving DecidableEq, Repr

def tokAt (ts : List Tok) (i : Nat) : Option Tok := ts[i]?

/-- The parameter-list loop of a decorator declaration: entries are either
identifier = value pairs or bare positional values, terminated by a closing
angle bracket; returns the updated decorator and the index of the
terminator. -/
def parseParams (toks : List Tok) : Nat → Nat → Dec → Except PErr (Dec × Nat)
  | 0, _, _ => .error .fuelOut
  | fuel+1, i, dec =>
    match tokAt toks (i+1) with
    | none => .error .oob
    | some tok =>
      if tok.val == ">" then .ok (dec, i+1)
      else if tok.isIdentifier then
        match tokAt toks (i+2) with
        | none => .error .oob
        | some teq =>
          if teq.val == "=" then
            match tokAt toks (i+3) with
            | none => .error .oob
            | some tv =>
              match resolveValue tv with
              | .error e => .error e
              | .ok v => parseParams toks fuel (i+3) { dec with props := setProp dec.props tok.val v }
          else .error (.located teq.loc .expectedEq)
      else
        match resolveValue tok with
        | .error e => .error e
        | .ok v => parseParams toks fuel (i+1) { dec with args := dec.args ++ [v] }

/-- The decorator-declaration branch of the namespace-body state: optional
global marker, optional negation marker (which forbids a parameter list),
optional macro marker, a mandatory identifier, and an optional parameter
list; the finished record is appended to the global buffer when the
global marker was present and to the local buffer otherwise. -/
def pstepDecor (toks : List Tok) (i : Nat) (tok : Tok) (st : PSt) :
    Except PErr StepRes :=
  match tokAt toks (i+1) with
  | none => .error .oob
  | some t1 =>
    let glbF := t1.val == "%"
    let j1 := if glbF then i+2 else i+1
    match tokAt toks j1 with
    | none => .error .oob
    | some t2 =>
      let notF := t2.val == "-"
      let j2 := if notF then j1+1 else j1
      match tokAt toks j2 with
      | none => .error .oob
      | some t3 =>
        let macF := t3.val == "!"
        let j3 := if macF then j2+1 else j2
        match tokAt toks j3 with
        | none => .error .oob
        | some tname =>
          if tname.isIdentifier then
            let props1 : Props := if notF then setProp [] "__not" (.bool true) else []
            let props2 := if macF then setProp props1 "__mac" (.bool true) else props1
            let props3 := if glbF then setProp props2 "__glb" (.bool true) else props2
            let dec : Dec :=
              { id := st.nextId, loc := tok.loc, name := tname.val, args := [], props := props3 }
            match tokAt toks (j3+1) with
            | none => .error .oob
            | some tlt =>
              if tlt.val == "<" then
                if notF then .error (.located tlt.loc .cantAddParams)
                else
                  match parseParams toks (toks.length + 1) (j3+1) dec with
                  | .error e => .error e
                  | .ok (dec2, iEnd) =>
                    if glbF then
                      .ok (.cont (iEnd+1) { st with
                        globDecs := st.globDecs ++ [dec2], nextId := st.nextId + 1 })
                    else
                      .ok (.cont (iEnd+1) { st with
                        decs := st.decs ++ [dec2], nextId := st.nextId + 1 })
              else
                if glbF then
                  .ok (.cont (j3+1) { st with
                    globDecs := st.globDecs ++ [dec], nextId := st.nextId + 1 })
                else
                  .ok (.cont (j3+1) { st with
                    decs := st.decs ++ [dec], nextId := st.nextId + 1 })
          else .error (.located tname.loc .expectedIdentifier)

/-- The top state of the parser: a namespace header opens a namespace, the
end-of-input token ends the parse, anything else is a syntax error. -/
def pstepTop (toks : List Tok) (i : Nat) (tok : Tok) (st : PSt) (props0 : Props) :
    Except PErr StepRes :=
  if tok.isNamespace then
    let name := sliceInner tok.val
    if name == "" then .error (.located tok.loc .missingNamespaceName)
    else
      match tokAt toks (i+1) with
      | none => .error .oob
      | some t1 =>
        if t1.val == "\x7b" then
          .ok (.cont (i+2) { st with
            state := .namespaceB
            ns := some { loc := tok.loc, name := name, props := props0, pages := [] } })
        else .error (.located t1.loc .expectedLBrace)
  else if tok.eof then .ok (.done st.nss)
  else .error (.located tok.loc .expectedNamespaceDecl)

/-- The namespace-body state of the parser: a closing brace ends the open
group or the namespace, an identifier starts a property assignment, a
page header opens a page, a percent starts a decorator declaration, an
opening brace starts a group over the buffered local decorators. -/
def pstepNs (toks : List Tok) (i : Nat) (tok : Tok) (st : PSt) (ns : Namespace) :
    Except PErr StepRes :=
  if tok.val == "\x7d" then
    if st.groupDecs.length != 0 then
      .ok (.cont (i+1) { st with groupDecs := [] })
    else
      .ok (.cont (i+1) { st with state := .top, ns := none, nss := st.nss ++ [ns] })
  else if tok.isIdentifier then
    match tokAt toks (i+1) with
    | none => .error .oob
    | some t1 =>
      if t1.val == "=" then
        match tokAt toks (i+2) with
        | none => .error .oob
        | some t2 =>
          match resolveValue t2 with
          | .error e => .error e
          | .ok v =>
            .ok (.cont (i+3) { st with
              ns := some { ns with props := setProp ns.props tok.val v } })
      else .error (.located t1.loc .expectedEq)
  else if tok.isPage then
    match tokAt toks (i+1) with
    | none => .error .oob
    | some t1 =>
      if t1.val == "\x7b" then
        .ok (.cont (i+2) { st with
          state := .pageB
          page := some { loc := tok.loc, name := sliceInner tok.val, path := none,
                         props := [], decorators := st.globDecs ++ st.groupDecs ++ st.decs }
          decs := [] })
      else .error (.located t1.loc .expectedLBrace)
  else if tok.val == "%" then
    pstepDecor toks i tok st
  else if tok.val == "\x7b" then
    if st.decs.length == 0 then .error (.located tok.loc .expectedDecsBeforeGroup)
    else .ok (.cont (i+1) { st with groupDecs := st.decs, decs := [] })
  else if tok.isNamespace then .error (.located tok.loc .unexpectedNamespace)
  else if tok.eof then .error (.located tok.loc .unexpectedEOF)
  else .error (.located tok.loc .unexpectedToken)

/-- The page-body state of the parser: a closing brace ends the page, an
identifier starts a property assignment, an at sign sets the resource
path. -/
def pstepPage (toks : List Tok) (i : Nat) (tok : Tok) (st : PSt) (ns : Namespace)
    (pg : Page) : Except PErr StepRes :=
  if tok.val == "\x7d" then
    .ok (.cont (i+1) { st with
      state := .namespaceB
      page := none
      ns := some { ns with pages := ns.pages ++ [pg] } })
  else if tok.isIdentifier then
    match tokAt toks (i+1) with
    | none => .error .oob
    | some t1 =>
      if t1.val == "=" then
        match tokAt toks (i+2) with
        | none => .error .oob
        | some t2 =>
          match resolveValue t2 with
          | .error e => .error e
          | .ok v =>
            .ok (.cont (i+3) { st with
              page := some { pg with props := setProp pg.props tok.val v } })
      else .error (.located t1.loc .expectedEq)
  else if tok.val == "@" then
    match tokAt toks (i+1) with
    | none => .error .oob
    | some t1 =>
      if t1.isString then
        .ok (.cont (i+2) { st with
          page := some { pg with path := some (sliceInner t1.val) } })
      else .error (.located t1.loc .expectedString)
  else if tok.isNamespace then .error (.located tok.loc .unexpectedNamespace)
  else if tok.isPage then .error (.located tok.loc .unexpectedPage)
  else .error (.located tok.loc .unexpectedToken)

/-- One iteration of the parser loop at token index `i`. -/
def pstep (toks : List Tok) (i : Nat) (tok : Tok) (st : PSt) (props0 : Props) :
    Except PErr StepRes :=
  match st.state with
  | .top => pstepTop toks i tok st props0
  | .namespaceB =>
    match st.ns with
    | none => .error (.located tok.loc .invalidState)
    | some ns => pstepNs toks i tok st ns
  | .pageB =>
    match st.page with
    | none => .error (.located tok.loc .invalidState)
    | some pg =>
      match st.ns with
      | none => .error (.located tok.loc .invalidState)
      | some ns => pstepPage toks i tok st ns pg

/-- The parser loop: running out of tokens ends the loop; the end-of-input
token in the top state ends it cleanly. -/
def parseLoop (toks : List Tok) (props0 : Props) : Nat → Nat → PSt → Except PErr (List Namespace)
  | 0, _, _ => .error .fuelOut
  | fuel+1, i, st =>
    match tokAt toks i with
    | none => .ok st.nss
    | some tok =>
      match pstep toks i tok st props0 with
      | .error e => .error e
      | .ok (.done nss) => .ok nss
      | .ok (.cont i2 st2) => parseLoop toks props0 fuel i2 st2

def initPSt : PSt :=
  ⟨.top, none, none, [], [], [], [], 0⟩

/-- One call of the add operation on a fresh document: tokenize and run the
parser loop from the initial state. -/
def parseAdd (src : Source) (props0 : Props) : Except PErr (List Namespace) :=
  let toks := tokenize src
  parseLoop toks props0 (toks.length + 1) 0 initPSt

/-- Build-time (resolution) errors: unknown macro or decorator name, each
carrying the name and the location of the offending decorator record. -/
inductive BErr
  | unknownMacro (name : String) (loc : Loc)
  | unknownDecorator (name : String) (loc : Loc)
deriving DecidableEq, Repr

/-- The two registries as the resolver reads them: each field is the
effective JavaScript property read on the plain-object registry
(own registered entries first, then the Object.prototype chain; see
jsLookup).  Decorator implementations rewrite the page property map (the
source discards the call result, so an implementation that returns the
page unchanged models a call without effect on the page), macro
implementations return replacement stubs. -/
structure Lib where
  decorators : String → Option (Page → Dec → Props)
  macros : String → Option (Page → Dec → List DecStub)

/-- The own property names of Object.prototype.  The registries are plain
object literals, so the property reads consult the prototype chain after
the own properties: for exactly these names a lookup that misses the
registered entries still finds an inherited value, which is truthy, and
the unknown-name guard does not fire. -/
def objectProtoKeys : List String :=
  ["constructor", "hasOwnProperty", "isPrototypeOf", "propertyIsEnumerable",
   "toLocaleString", "toString", "valueOf", "__defineGetter__",
   "__defineSetter__", "__lookupGetter__", "__lookupSetter__", "__proto__"]

/-- The JavaScript property read on a plain-object registry: the own
(registered) properties are consulted first, then the prototype chain.
A faithful prototype side yields values only at the names of
objectProtoKeys. -/
def jsLookup {A : Type} (own proto : String → Option A) (nm : String) : Option A :=
  match own nm with
  | some f => some f
  | none => proto nm

/-- Give fresh identities to the stub records returned by a macro
implementation (JavaScript allocates fresh objects). -/
def assignIds : List DecStub → Nat → List Dec × Nat
  | [], n => ([], n)
  | s :: rest, n =>
    let (ds, n2) := assignIds rest (n+1)
    (s.withId n :: ds, n2)

/-- Array.prototype.indexOf by object identity: the index of the first
element with the given id, or -1. -/
def jsIndexOf (l : List Dec) (id : Nat) : Int :=
  match l.findIdx? (fun d => d.id == id) with
  | some k => (k : Int)
  | none => -1

/-- The clamped start index of Array.prototype.splice. -/
def jsSpliceStart (l : List Dec) (start : Int) : Nat :=
  if start < 0 then (max ((l.length : Int) + start) 0).toNat
  else min start.toNat l.length

/-- Array.prototype.splice with delete count one: clamp the start index,
remove one element there and insert the given items in its place. -/
def jsSplice (l : List Dec) (start : Int) (items : List Dec) : List Dec :=
  l.take (jsSpliceStart l start) ++ items ++ l.drop (jsSpliceStart l start + 1)

/-- The macro-expansion loop: iterate over the snapshot of macro-flagged
decorators, look each implementation up, propagate the negated flag onto
the returned stubs when the macro was negated, and splice the stubs over
the macro at its current position.  reg is the effective property read on
the macro registry, including the Object.prototype fallback (jsLookup): a
lookup returns none only when the name misses both the registered entries
and the prototype chain. -/
def macroLoop (reg : String → Option (Page → Dec → List DecStub)) :
    List Dec → Page → Nat → Except BErr (Page × Nat)
  | [], p, n => .ok (p, n)
  | m :: rest, p, n =>
    match reg m.name with
    | none => .error (.unknownMacro m.name m.loc)
    | some f =>
      let stubs := f p m
      let stubs2 := if truthy (getProp m.props "__not") then
          stubs.map (fun s => { s with props := setProp s.props "__not" (.bool true) })
        else stubs
      let (ds, n2) := assignIds stubs2 n
      let newDecs := jsSplice p.decorators (jsIndexOf p.decorators m.id) ds
      macroLoop reg rest { p with decorators := newDecs } n2

/-- One probe of the inner cancellation loop at index `j`: remove the
element there when its name matches. -/
def cancelErase (nm : String) (l : List Dec) (j : Nat) : List Dec :=
  match l[j]? with
  | some d => if d.name == nm then l.eraseIdx j else l
  | none => l

/-- The inner cancellation loop: probe indices from `j` down to `i`. -/
def cancelInner (nm : String) (i : Nat) : List Dec → Nat → List Dec
  | l, 0 => if 0 < i then l else cancelErase nm l 0
  | l, j+1 => if j+1 < i then l else cancelInner nm i (cancelErase nm l (j+1)) j

/-- One iteration of the outer cancellation loop at index `i`: when the
decorator there is negated, run the inner loop over its name from the top
of the current list down to `i`. -/
def cancelStep (l : List Dec) (i : Nat) : List Dec :=
  match l[i]? with
  | some d =>
    if truthy (getProp d.props "__not") then cancelInner d.name i l (l.length - 1)
    else l
  | none => l

/-- The outer cancellation loop, scanning indices from `i` down to zero. -/
def cancelOuter : List Dec → Nat → List Dec
  | l, 0 => cancelStep l 0
  | l, i+1 => cancelOuter (cancelStep l (i+1)) i

/-- The cancellation pass over a decorator list. -/
def cancelPass (l : List Dec) : List Dec :=
  if l.length == 0 then l else cancelOuter l (l.length - 1)

/-- The invocation loop: look up each remaining decorator in order and let
its implementation rewrite the page property map (the source discards the
call result, so an implementation returning the page property map
unchanged models a call without effect on the page).  reg is the
effective property read on the decorator registry, including the
Object.prototype fallback (jsLookup). -/
def invokeLoop (reg : String → Option (Page → Dec → Props)) :
    List Dec → Page → Except BErr Page
  | [], p => .ok p
  | d :: rest, p =>
    match reg d.name with
    | none => .error (.unknownDecorator d.name d.loc)
    | some f => invokeLoop reg rest { p with props := f p d }

/-- Resolution of a single page: macro expansion over the snapshot of
macro-flagged decorators, cancellation, invocation, then the decorator
list is cleared. -/
def resolvePage (lib : Lib) (page : Page) (n : Nat) : Except BErr (Page × Nat) :=
  match macroLoop lib.macros
      (page.decorators.filter (fun d => truthy (getProp d.props "__mac"))) page n with
  | .error e => .error e
  | .ok (p1, n2) =>
    let p2 := { p1 with decorators := cancelPass p1.decorators }
    match invokeLoop lib.decorators p2.decorators p2 with
    | .error e => .error e
    | .ok p3 => .ok ({ p3 with decorators := [] }, n2)

/-- Sequential resolution of a list of pages, threading the id counter. -/
def resolvePages (lib : Lib) : List Page → Nat → Except BErr (List Page × Nat)
  | [], n => .ok ([], n)
  | p :: rest, n =>
    match resolvePage lib p n with
    | .error e => .error e
    | .ok (p2, n2) =>
      match resolvePages lib rest n2 with
      | .error e => .error e
      | .ok (ps, n3) => .ok (p2 :: ps, n3)

/-- The resolution part of the build operation (no output path given, so no
file output is performed): resolve every page of every namespace in
order. -/
def buildResolve (lib : Lib) : List Namespace → Nat → Except BErr (List Namespace × Nat)
  | [], n => .ok ([], n)
  | ns :: rest, n =>
    match resolvePages lib ns.pages n with
    | .error e => .error e
    | .ok (ps, n2) =>
      match buildResolve lib rest n2 with
      | .error e => .error e
      | .ok (nss, n3) => .ok ({ ns with pages := ps } :: nss, n3)

/-- The negated flag of a decorator record, read by the cancellation pass
from the shared property map. -/
def negFlag (d : Dec) : Bool := truthy (getProp d.props "__not")

/-- The macro flag of a decorator record, read by the expansion pass from
the shared property map. -/
def macFlag (d : Dec) : Bool := truthy (getProp d.props "__mac")

/-- Projection: the page at namespace index `a`, page index `b` of a parse
result (with no default namespace properties). -/
def parsedPage (src : Source) (a b : Nat) : Option Page :=
  match parseAdd src [] with
  | .ok nss => (nss[a]?).bind (fun ns => ns.pages[b]?)
  | .error _ => none

/-- Projection: the namespace names of a parse result, in order. -/
def parsedNsNames (src : Source) : Option (List String) :=
  match parseAdd src [] with
  | .ok nss => some (nss.map Namespace.name)
  | .error _ => none

/-- Projection: the page at namespace index `a`, page index `b` after
parsing and running the resolution part of build. -/
def builtPage (src : Source) (lib : Lib) (a b : Nat) : Option Page :=
  match parseAdd src [] with
  | .ok nss =>
    match buildResolve lib nss 1000 with
    | .ok (nss2, _) => (nss2[a]?).bind (fun ns => ns.pages[b]?)
    | .error _ => none
  | .error _ => none

/-- A page declared inside a namespace with no decorators (round-trip
example of the specification). -/
def srcRoundtrip : Source := Source.make "s" "(n)\x7b[p]\x7b@\"x\"\x7d\x7d"

/-- A page declared before a namespace-global decorator declaration and a
page declared after it. -/
def srcGlobalOrder : Source :=
  Source.make "s" "(a)\x7b[p]\x7b@\"x\"\x7d %%d [q]\x7b@\"y\"\x7d\x7d"

/-- A decorator buffered in one namespace and left unconsumed when the
namespace closes, followed by a second namespace with a page. -/
def srcLeak : Source := Source.make "s" "(a)\x7b%d\x7d(b)\x7b[p]\x7b@\"x\"\x7d\x7d"

/-- A namespace-global decorator followed by two pages. -/
def srcShared : Source :=
  Source.make "s" "(a)\x7b%%d [p]\x7b@\"x\"\x7d[q]\x7b@\"y\"\x7d\x7d"

/-- A decorator with a user-supplied named parameter literally called
__not, followed by a page. -/
def srcUserNot : Source :=
  Source.make "s" "(n)\x7b%d<__not=\"x\">[p]\x7b@\"r\"\x7d\x7d"

/-- The empty library: no decorator and no macro implementations. -/
def libEmpty : Lib := ⟨fun _ => none, fun _ => none⟩

/-- A library registering decorator `d` with an implementation that
records its invocation in the page property map. -/
def libMark : Lib :=
  ⟨fun n => if n == "d" then some (fun pg _ => setProp pg.props "ran" (.bool true)) else none,
   fun _ => none⟩

/-- Propagation of the negated flag onto macro output: when the macro
decorator was negated, every produced stub is marked negated. -/
def markNot (d : Dec) (stubs : List DecStub) : List DecStub :=
  if negFlag d then
    stubs.map (fun s => { s with props := setProp s.props "__not" (.bool true) })
  else stubs

/-- Spec-side expansion of one decorator, phrased after the claim: a
macro-flagged decorator is replaced by the stubs its implementation
returns for the given page, with the negated flag propagated; any other
decorator stays (as its identity-erased core). -/
def coreExpand (reg : String → Option (Page → Dec → List DecStub)) (page : Page)
    (d : Dec) : List DecStub :=
  if macFlag d then
    match reg d.name with
    | some f => markNot d (f page d)
    | none => [d.core]
  else [d.core]

/-- Spec-side definition of one-level macro expansion, phrased after the
claim: each macro-flagged decorator of the original list is replaced in
place by its stubs, every other decorator is kept, and stubs are never
expanded again (even when a stub name matches a registered macro).
Stated on identity-erased records; compared against `macroLoop` in the
refinement theorem. -/
def macroExpandSpecCore (reg : String → Option (Page → Dec → List DecStub))
    (page : Page) : List DecStub :=
  page.decorators.flatMap (coreExpand reg page)

/-- A page-independent macro registry and a page for the macro-expansion
witness: macro m (negated) expands to stubs a and b. -/
def regC2 : String → Option (Page → Dec → List DecStub) :=
  fun nm =>
    if nm == "m" then some (fun _ dx => [⟨dx.loc, "a", [], []⟩, ⟨dx.loc, "b", [], []⟩])
    else none

def dMac2 : Dec := ⟨0, ⟨1, 0, 1⟩, "m", [], [("__not", .bool true), ("__mac", .bool true)]⟩

def dPlain2 : Dec := ⟨1, ⟨6, 0, 1⟩, "k", [], []⟩

def pgC2 : Page := ⟨⟨0, 0, 1⟩, "p", none, [], [dMac2, dPlain2]⟩

/-- Concrete decorator records used to instantiate the general theorems. -/
def dWn1 : Dec := ⟨1, ⟨0, 0, 1⟩, "n", [], []⟩

def dWneg : Dec := ⟨2, ⟨5, 0, 1⟩, "n", [], [("__not", .bool true)]⟩

def dWn2 : Dec := ⟨3, ⟨9, 0, 1⟩, "n", [], []⟩

def dWm : Dec := ⟨4, ⟨13, 0, 1⟩, "m", [], []⟩

/-- A decorator carrying a user-written __not parameter. -/
def dWuser : Dec := ⟨5, ⟨0, 1, 1⟩, "u", [], [("__not", .str "x")]⟩

/-- Concrete tokens and a concrete parser state for instantiating the
parser step theorems. -/
def tokPageW : Tok := ⟨"[p]", ⟨0, 0, 3⟩, false⟩

def tokBraceW : Tok := ⟨"\x7b", ⟨3, 0, 1⟩, false⟩

def tokCloseW : Tok := ⟨"\x7d", ⟨4, 0, 1⟩, false⟩

def nsW : Namespace := ⟨⟨0, 0, 3⟩, "a", [], []⟩

def stC3 : PSt := ⟨.namespaceB, some nsW, none, [dWn1], [dWm], [dWn2], [], 10⟩

/-- Parser states before and after a namespace-closing brace, for the
witness of the buffer-persistence theorem. -/
def stC5 : PSt := ⟨.namespaceB, some nsW, none, [dWn1], [], [dWn2], [], 10⟩

/-- The parser state after the page-open step from stC3, for the
witnesses of the step theorems. -/
def stC3r : PSt :=
  ⟨.pageB, some nsW, some ⟨⟨0, 0, 3⟩, "p", none, [], [dWn2, dWm, dWn1]⟩,
   [], [dWm], [dWn2], [], 10⟩

def stC5r : PSt := ⟨.top, none, none, [dWn1], [], [dWn2], [nsW], 10⟩

/-- Concrete sources for the parse-result theorem witnesses. -/
def srcWs : Source := Source.make "w" " \n\t "

def srcX : Source := Source.make "e" "x"

/-- The user-registered decorator entries for the unknown-name witnesses:
a single decorator named a. -/
def ownDec8 : String → Option (Page → Dec → Props) :=
  fun nm => if nm == "a" then some (fun pg _ => pg.props) else none

/-- The user-registered macro entries for the unknown-name witnesses: a
single macro named a. -/
def ownMac8 : String → Option (Page → Dec → List DecStub) :=
  fun nm => if nm == "a" then some (fun _ _ => []) else none

/-- The prototype side of the decorator registry, modelled at the one
inherited name the concrete runs of this file consult:
Object.prototype.constructor is the Object function, which called as
impl(page, dec) returns its object argument without mutating the page,
and the source discards the call result, so the page property map is
unchanged.  No concrete run of this file reads the decorator registry at
another inherited name, so the other names of objectProtoKeys are left
unmodelled here. -/
def protoDecC8 : String → Option (Page → Dec → Props) :=
  fun nm => if nm == "constructor" then some (fun pg _ => pg.props) else none

/-- The prototype side of the macro registry: no concrete run of this file
reads the macro registry at an inherited name, so it is left empty. -/
def protoMacC8 : String → Option (Page → Dec → List DecStub) := fun _ => none

/-- The registries of the unknown-name witnesses, as the effective
property read (jsLookup) sees them. -/
def libC8 : Lib := ⟨jsLookup ownDec8 protoDecC8, jsLookup ownMac8 protoMacC8⟩

def dA8 : Dec := ⟨6, ⟨1, 1, 1⟩, "a", [], []⟩

def dZ8 : Dec := ⟨7, ⟨2, 3, 1⟩, "zz", [], []⟩

def pgW8 : Page := ⟨⟨9, 9, 1⟩, "pp", none, [], []⟩

def pgOk8 : Page := ⟨⟨0, 4, 1⟩, "ok", none, [], [dA8]⟩

def pgBad8 : Page := ⟨⟨0, 5, 1⟩, "bad", none, [], [dZ8]⟩

/-- The resolved form of pgOk8 (decorator list cleared). -/
def pgOk8r : Page := ⟨⟨0, 4, 1⟩, "ok", none, [], []⟩

/-- An empty user decorator registry: nothing registered. -/
def ownDecEmpty : String → Option (Page → Dec → Props) := fun _ => none

/-- An empty user macro registry: nothing registered. -/
def ownMacEmpty : String → Option (Page → Dec → List DecStub) := fun _ => none

/-- The registries of a builder on which no library was registered, as the
effective property read sees them: the prototype chain still answers at
the names of objectProtoKeys. -/
def libCtor : Lib := ⟨jsLookup ownDecEmpty protoDecC8, jsLookup ownMacEmpty protoMacC8⟩

/-- A decorator record named constructor: a name absent from the user
registry that the Object.prototype fallback still answers. -/
def dCtor8 : Dec := ⟨3, ⟨7, 2, 11⟩, "constructor", [], []⟩

/-- A page whose only decorator is the constructor-named record. -/
def pgCtor8 : Page := ⟨⟨0, 6, 1⟩, "pc", none, [], [dCtor8]⟩

/-- The resolved form of pgCtor8: decorator list cleared, everything else
untouched. -/
def pgCtorR8 : Page := ⟨⟨0, 6, 1⟩, "pc", none, [], []⟩

/-! ## Theorems -/

set_option maxRecDepth 100000

/-! ### Characterization of the cancellation pass (claims C1, C10) -/

theorem length_cancelErase_ge (nm : String) (l : List Dec) (j : Nat) :
    l.length - 1 ≤ (cancelErase nm l j).length := by
  unfold cancelErase
  match hd : l[j]? with
  | none => simp
  | some d =>
    by_cases hn : d.name == nm
    · simp only [hn, if_true]
      rw [List.length_eraseIdx]
      split <;> omega
    · simp [hn]

theorem cancelErase_append (nm : String) (rest l : List Dec) (j : Nat) (h : j < l.length) :
    cancelErase nm (l ++ rest) j = cancelErase nm l j ++ rest := by
  unfold cancelErase
  rw [List.getElem?_append_left h]
  match hd : l[j]? with
  | none =>
    have := List.getElem?_eq_none_iff.mp hd
    omega
  | some d =>
    by_cases hn : d.name == nm
    · simp only [hn, if_true]
      rw [List.eraseIdx_eq_take_drop_succ, List.eraseIdx_eq_take_drop_succ,
        List.take_append_eq_append_take, List.drop_append_eq_append_drop]
      have h1 : j - l.length = 0 := by omega
      have h2 : j + 1 - l.length = 0 := by omega
      simp [h1, h2]
    · simp [hn]

theorem cancelInner_append (nm : String) (i : Nat) (rest : List Dec) :
    ∀ (j : Nat) (l : List Dec), j < l.length →
      cancelInner nm i (l ++ rest) j = cancelInner nm i l j ++ rest := by
  intro j
  induction j with
  | zero =>
    intro l h
    by_cases hi : 0 < i
    · simp [cancelInner, hi]
    · simp only [cancelInner, hi, if_false]
      exact cancelErase_append nm rest l 0 h
  | succ j ih =>
    intro l h
    by_cases hi : j + 1 < i
    · simp [cancelInner, hi]
    · simp only [cancelInner, hi, if_false]
      rw [cancelErase_append nm rest l (j+1) h]
      exact ih (cancelErase nm l (j+1)) (by have := length_cancelErase_ge nm l (j+1); omega)

theorem cancelErase_eq (nm : String) (l : List Dec) (j : Nat) (d : Dec)
    (hd : l[j]? = some d) :
    cancelErase nm l j = if d.name == nm then l.eraseIdx j else l := by
  unfold cancelErase
  rw [hd]

theorem cancelInner_stop (nm : String) (i : Nat) (l : List Dec) (j : Nat) (h : j < i) :
    cancelInner nm i l j = l := by
  cases j with
  | zero => simp [cancelInner, h]
  | succ k => simp [cancelInner, h]

theorem cancelInner_zero (nm : String) (i : Nat) (l : List Dec) (h : ¬ (0 < i)) :
    cancelInner nm i l 0 = cancelErase nm l 0 := by
  simp [cancelInner, h]

theorem cancelInner_succ (nm : String) (i : Nat) (l : List Dec) (k : Nat)
    (h : ¬ (k + 1 < i)) :
    cancelInner nm i l (k+1) = cancelInner nm i (cancelErase nm l (k+1)) k := by
  simp [cancelInner, h]

theorem cancelInner_spec (nm : String) (i : Nat) :
    ∀ (l : List Dec), i ≤ l.length →
      cancelInner nm i l (l.length - 1)
        = l.take i ++ (l.drop i).filter (fun d => !(d.name == nm)) := by
  intro l
  induction l using List.reverseRecOn with
  | nil =>
    intro hi
    have h0 : i = 0 := by simpa using hi
    subst h0
    simp [cancelInner, cancelErase]
  | append_singleton l x ih =>
    intro hi
    have hlen : (l ++ [x]).length = l.length + 1 := by simp
    rw [hlen, Nat.add_sub_cancel]
    by_cases htop : i = l.length + 1
    · rw [cancelInner_stop nm i (l ++ [x]) l.length (by omega)]
      rw [List.take_of_length_le (by simp; omega), List.drop_eq_nil_of_le (by simp; omega)]
      simp
    · have hile : i ≤ l.length := by rw [hlen] at hi; omega
      have htake : (l ++ [x]).take i = l.take i := by
        rw [List.take_append_eq_append_take]
        have h1 : i - l.length = 0 := by omega
        simp [h1]
      have hdrop : (l ++ [x]).drop i = l.drop i ++ [x] := by
        rw [List.drop_append_eq_append_drop]
        have h1 : i - l.length = 0 := by omega
        simp [h1]
      have hfin : l.take i ++ (l.drop i).filter (fun d => !(d.name == nm))
            ++ (if x.name == nm then ([] : List Dec) else [x])
          = (l ++ [x]).take i ++ ((l ++ [x]).drop i).filter (fun d => !(d.name == nm)) := by
        rw [htake, hdrop, List.filter_append, List.append_assoc]
        by_cases hn : x.name == nm
        · simp [List.filter, hn]
        · simp [List.filter, hn]
      match hk : l.length with
      | 0 =>
        have hl0 : l = [] := List.length_eq_zero.mp hk
        subst hl0
        have hi0 : i = 0 := by simpa using hile
        subst hi0
        rw [cancelInner_zero nm 0 ([] ++ [x]) (by omega)]
        rw [cancelErase_eq nm ([] ++ [x]) 0 x (by simp)]
        by_cases hn : x.name == nm
        · simp [hn]
        · simp [hn]
      | k + 1 =>
        rw [cancelInner_succ nm i (l ++ [x]) k (by omega)]
        have hx2 : (l ++ [x])[k+1]? = some x := by
          have := List.getElem?_concat_length l x
          rw [hk] at this
          exact this
        rw [cancelErase_eq nm (l ++ [x]) (k+1) x hx2]
        by_cases hn : x.name == nm
        · simp only [hn, if_true]
          have herase : (l ++ [x]).eraseIdx (k+1) = l := by
            rw [List.eraseIdx_eq_take_drop_succ]
            rw [List.take_left' (by omega), List.drop_eq_nil_of_le (by simp; omega)]
            simp
          rw [herase]
          have hkk : k = l.length - 1 := by omega
          rw [hkk, ih hile, ← hfin]
          simp [hn]
        · rw [if_neg (by simp [hn])]
          rw [cancelInner_append nm i [x] k l (by omega)]
          have hkk : k = l.length - 1 := by omega
          rw [hkk, ih hile, ← hfin]
          simp [hn]

theorem cancelStep_eq (l : List Dec) (i : Nat) (d : Dec) (hd : l[i]? = some d) :
    cancelStep l i
      = if truthy (getProp d.props "__not") then cancelInner d.name i l (l.length - 1)
        else l := by
  unfold cancelStep
  rw [hd]

theorem cancelStep_of_neg (l : List Dec) (i : Nat) (h : i < l.length)
    (hneg : negFlag (l.get ⟨i, h⟩) = true) :
    cancelStep l i
      = l.take i ++ (l.drop i).filter (fun d => !(d.name == (l.get ⟨i, h⟩).name)) := by
  rw [cancelStep_eq l i (l.get ⟨i, h⟩) (by simp)]
  rw [if_pos (by simpa [negFlag] using hneg)]
  exact cancelInner_spec _ i l (by omega)

theorem cancelStep_of_pos (l : List Dec) (i : Nat) (h : i < l.length)
    (hpos : negFlag (l.get ⟨i, h⟩) = false) : cancelStep l i = l := by
  rw [cancelStep_eq l i (l.get ⟨i, h⟩) (by simp)]
  rw [if_neg (by simp only [negFlag, List.get_eq_getElem] at hpos; simp [hpos])]

theorem cancelStep_oob (l : List Dec) (i : Nat) (h : l.length ≤ i) : cancelStep l i = l := by
  unfold cancelStep
  rw [List.getElem?_eq_none h]

theorem cancelStep_noop (l : List Dec) (i : Nat)
    (h : ∀ (hj : i < l.length), negFlag (l.get ⟨i, hj⟩) = false) : cancelStep l i = l := by
  by_cases hlt : i < l.length
  · exact cancelStep_of_pos l i hlt (h hlt)
  · exact cancelStep_oob l i (by omega)

theorem cancelOuter_noop (l : List Dec) :
    ∀ (i : Nat), (∀ (j : Nat) (hj : j < l.length), j ≤ i → negFlag (l.get ⟨j, hj⟩) = false) →
      cancelOuter l i = l := by
  intro i
  induction i with
  | zero =>
    intro h
    show cancelStep l 0 = l
    exact cancelStep_noop l 0 (fun hj => h 0 hj (by omega))
  | succ i ih =>
    intro h
    show cancelOuter (cancelStep l (i+1)) i = l
    rw [cancelStep_noop l (i+1) (fun hj => h (i+1) hj (by omega))]
    exact ih (fun j hj hji => h j hj (by omega))

theorem cancelOuter_skip (l : List Dec) (i0 : Nat)
    (h : ∀ (j : Nat) (hj : j < l.length), i0 < j → negFlag (l.get ⟨j, hj⟩) = false) :
    ∀ (k : Nat), cancelOuter l (i0 + k) = cancelOuter l i0 := by
  intro k
  induction k with
  | zero => rfl
  | succ k ih =>
    show cancelOuter (cancelStep l (i0 + k + 1)) (i0 + k) = cancelOuter l i0
    rw [cancelStep_noop l (i0 + k + 1) (fun hj => h (i0 + k + 1) hj (by omega))]
    exact ih

theorem cancelOuter_zero (l : List Dec) : cancelOuter l 0 = cancelStep l 0 := rfl

theorem cancelOuter_succ (l : List Dec) (i : Nat) :
    cancelOuter l (i+1) = cancelOuter (cancelStep l (i+1)) i := rfl

theorem cancelPass_one_negated (a b : List Dec) (d : Dec)
    (hd : negFlag d = true)
    (ha : ∀ x ∈ a, negFlag x = false)
    (hb : ∀ x ∈ b, negFlag x = false) :
    cancelPass (a ++ d :: b) = a ++ b.filter (fun x => !(x.name == d.name)) := by
  have hlen : (a ++ d :: b).length = a.length + b.length + 1 := by
    simp only [List.length_append, List.length_cons]
    omega
  unfold cancelPass
  rw [if_neg (by simp [hlen])]
  rw [show (a ++ d :: b).length - 1 = a.length + b.length from by omega]
  have hbj : ∀ (j : Nat) (hj : j < (a ++ d :: b).length), a.length < j →
      negFlag ((a ++ d :: b).get ⟨j, hj⟩) = false := by
    intro j hj hgt
    obtain ⟨m, rfl⟩ : ∃ m, j = a.length + 1 + m := ⟨j - a.length - 1, by omega⟩
    simp only [List.get_eq_getElem]
    rw [List.getElem_append_right (by omega)]
    have hidx2 : a.length + 1 + m - a.length = m + 1 := by omega
    simp only [hidx2, List.getElem_cons_succ]
    exact hb _ (List.getElem_mem _)
  rw [cancelOuter_skip (a ++ d :: b) a.length hbj b.length]
  have hj0 : a.length < (a ++ d :: b).length := by omega
  have hdidx : (a ++ d :: b).get ⟨a.length, hj0⟩ = d := by
    simp only [List.get_eq_getElem]
    rw [List.getElem_append_right (by omega)]
    simp
  have hstepA : cancelStep (a ++ d :: b) a.length
      = a ++ b.filter (fun x => !(x.name == d.name)) := by
    rw [cancelStep_of_neg (a ++ d :: b) a.length hj0 (by rw [hdidx]; exact hd), hdidx]
    rw [List.take_left a (d :: b), List.drop_left a (d :: b)]
    have hdgone : (d :: b).filter (fun x => !(x.name == d.name))
        = b.filter (fun x => !(x.name == d.name)) := by
      simp [List.filter]
    rw [hdgone]
  cases hka : a.length with
  | zero =>
    rw [cancelOuter_zero, ← hka, hstepA]
  | succ k =>
    rw [cancelOuter_succ, ← hka, hstepA]
    refine cancelOuter_noop _ k ?_
    intro j hj hji
    have hja : j < a.length := by omega
    have hgt : (a ++ List.filter (fun x => !(x.name == d.name)) b).get ⟨j, hj⟩
        = a.get ⟨j, hja⟩ := by
      simp only [List.get_eq_getElem]
      exact List.getElem_append_left hja
    rw [hgt]
    exact ha _ (List.get_mem a _ _)

/-- C7: for a page declared [p]{@"x"} inside a namespace with no
decorators, after parsing and running resolution (build without output
I/O) the page has an empty decorator list, resource path "x", and a
property map unchanged from the empty map it had at creation. -/
theorem claim_C7_roundtrip :
    (parsedPage srcRoundtrip 0 0).map Page.props = some []
    ∧ (builtPage srcRoundtrip libEmpty 0 0).map (fun p => (p.decorators, p.path, p.props))
      = some ([], some "x", []) := by
  decide

/-- C4 counterexample: in (a){[p]{@"x"} %%d [q]{@"y"}} the global
decorator d declared with a double percent inside namespace a is absent
from page p, which was declared before the declaration, while page q,
declared after it, carries it; so a namespace-global decorator is not
attached to pages regardless of their position relative to the
declaration. -/
theorem claim_C4_counterexample :
    (parsedPage srcGlobalOrder 0 0).map (fun p => (p.name, p.decorators)) = some ("p", [])
    ∧ (parsedPage srcGlobalOrder 0 1).map
        (fun p => (p.name, p.decorators.map (fun d => (d.name, getProp d.props "__glb"))))
      = some ("q", [("d", some (.bool true))]) := by
  decide

/-- C5 counterexample: parsing (a){%d}(b){[p]{@"x"}} declares two
namespaces; the decorator d buffered locally inside namespace a and never
consumed there is attached to page p of the later namespace b, because no
buffer is cleared when a namespace closes. -/
theorem claim_C5_counterexample :
    parsedNsNames srcLeak = some ["a", "b"]
    ∧ (parsedPage srcLeak 0 0) = none
    ∧ (parsedPage srcLeak 1 0).map (fun p => (p.name, p.decorators.map Dec.name))
      = some ("p", ["d"]) := by
  decide

/-- C6 counterexample: in (a){%%d [p]{@"x"}[q]{@"y"}} the single
Decorator record created for the global declaration d (identity 0) sits
in the decorator lists of both page p and page q at once, so a Decorator
record does not belong to exactly one page. -/
theorem claim_C6_counterexample :
    (parsedPage srcShared 0 0).map (fun p => (p.name, p.decorators.map Dec.id))
      = some ("p", [0])
    ∧ (parsedPage srcShared 0 1).map (fun p => (p.name, p.decorators.map Dec.id))
      = some ("q", [0]) := by
  decide

/-- C6 amended: a buffered (here namespace-global) decorator record is
inserted by reference into the decorator list of every page it applies
to, so the very same record belongs to several pages simultaneously; each
page only loses it when that page is resolved, at which point its
decorator list becomes empty. -/
theorem claim_C6_amended_sharing :
    (parsedPage srcShared 0 0).map Page.decorators
      = (parsedPage srcShared 0 1).map Page.decorators
    ∧ (parsedPage srcShared 0 0).map Page.decorators ≠ some []
    ∧ (parsedPage srcShared 0 0).map Page.name ≠ (parsedPage srcShared 0 1).map Page.name
    ∧ (builtPage srcShared libMark 0 0).map Page.decorators = some []
    ∧ (builtPage srcShared libMark 0 1).map Page.decorators = some [] := by
  decide

/-- C1: during resolution, the cancellation pass scans the page decorator
list from its last index down to its first and, for every decorator
flagged negated, removes that entry and every other decorator with the
same name at an index greater than or equal to its own current index,
while same-named decorators at indices strictly before it are left in the
list.  First conjunct: one outer-loop probe of the pass at an index
holding a negated decorator keeps the prefix before that index untouched
and removes exactly the same-named entries at or after it.  Second
conjunct: on a list whose only negated entry is d, the whole pass removes
d and the same-named entries after it while the prefix (even same-named
entries there) survives. -/
theorem claim_C1_cancellation :
    (∀ (l : List Dec) (i : Nat) (h : i < l.length), negFlag (l.get ⟨i, h⟩) = true →
      cancelStep l i
        = l.take i ++ (l.drop i).filter (fun x => !(x.name == (l.get ⟨i, h⟩).name)))
    ∧ (∀ (a b : List Dec) (d : Dec), negFlag d = true →
        (∀ x ∈ a, negFlag x = false) → (∀ x ∈ b, negFlag x = false) →
        cancelPass (a ++ d :: b) = a ++ b.filter (fun x => !(x.name == d.name))) :=
  ⟨fun l i h hn => cancelStep_of_neg l i h hn,
   fun a b d hd ha hb => cancelPass_one_negated a b d hd ha hb⟩

theorem claim_C1_witness :
    cancelStep [dWneg, dWn2] 0 = []
    ∧ cancelPass [dWn1, dWneg, dWn2, dWm] = [dWn1, dWm] :=
  ⟨(claim_C1_cancellation.1 [dWneg, dWn2] 0 (by decide) (by decide)).trans (by decide),
   (claim_C1_cancellation.2 [dWn1] [dWn2, dWm] dWneg (by decide) (by decide)
      (by decide)).trans (by decide)⟩

/-- C10: a decorator declared without the dash negation marker but
carrying a user-supplied named parameter literally called __not with a
truthy value is treated as negated by the cancellation pass, because the
internal flags share the string-keyed property map with user parameters.
First conjunct: parsing %d<__not="x"> stores the string "x" under key
__not (and no dash flag), and after build the page carries no property
written by the registered implementation of d (it was never invoked) and
an empty decorator list.  Second conjunct: in general the pass removes
such a decorator and every same-named decorator at or after its
position. -/
theorem claim_C10_user_not :
    ((parsedPage srcUserNot 0 0).map (fun p => p.decorators.map (fun x => (x.name, x.props)))
        = some [("d", [("__not", .str "x")])]
      ∧ (builtPage srcUserNot libMark 0 0).map (fun p => (p.props, p.decorators))
        = some ([], []))
    ∧ (∀ (a b : List Dec) (d : Dec) (s : String),
        getProp d.props "__not" = some (.str s) → ¬ s = "" →
        (∀ x ∈ a, negFlag x = false) → (∀ x ∈ b, negFlag x = false) →
        cancelPass (a ++ d :: b) = a ++ b.filter (fun x => !(x.name == d.name))) := by
  constructor
  · exact ⟨by decide, by decide⟩
  · intro a b d s hs hne ha hb
    refine cancelPass_one_negated a b d ?_ ha hb
    simp [negFlag, hs, truthy, hne]

theorem claim_C10_witness :
    cancelPass [dWuser] = [] :=
  (claim_C10_user_not.2 [] [] dWuser "x" (by decide) (by decide) (by decide)
    (by decide)).trans (by decide)

/-- C3: when the parser opens a page inside a namespace body (a
page-header token immediately followed by an opening brace), the new Page
decorator list is initialized as the concatenation global ++ group ++
local of the currently buffered pending decorators, snapshotted at
page-creation time, and only the local buffer is cleared afterwards (the
group and global buffers are untouched). -/
theorem claim_C3_page_open (toks : List Tok) (i : Nat) (tok : Tok) (st : PSt)
    (props0 : Props) (ns : Namespace) (t1 : Tok)
    (hstate : st.state = .namespaceB) (hns : st.ns = some ns)
    (hpage : tok.isPage = true)
    (hnotbrace : ¬ tok.val = "\x7d") (hnotident : tok.isIdentifier = false)
    (ht1 : tokAt toks (i+1) = some t1) (ht1v : t1.val = "\x7b") :
    pstep toks i tok st props0
      = .ok (.cont (i+2) { st with
          state := .pageB
          page := some { loc := tok.loc, name := sliceInner tok.val, path := none,
                         props := [], decorators := st.globDecs ++ st.groupDecs ++ st.decs }
          decs := [] }) := by
  unfold pstep
  rw [hstate, hns]
  show pstepNs toks i tok st ns = _
  unfold pstepNs
  rw [if_neg (by simp [hnotbrace])]
  rw [if_neg (by simp [hnotident])]
  rw [if_pos (by simp [hpage])]
  rw [ht1]
  simp [ht1v, hns]

theorem claim_C3_witness :
    pstep [tokPageW, tokBraceW] 0 tokPageW stC3 []
      = .ok (.cont 2 { stC3 with
          state := .pageB
          page := some { loc := tokPageW.loc, name := sliceInner tokPageW.val, path := none,
                         props := [], decorators := stC3.globDecs ++ stC3.groupDecs ++ stC3.decs }
          decs := [] }) :=
  claim_C3_page_open [tokPageW, tokBraceW] 0 tokPageW stC3 [] nsW tokBraceW
    rfl rfl (by decide) (by decide) (by decide) (by decide) (by decide)

/-- C5 amended: the pending decorator buffers are not restored to empty
when a namespace closes.  A closing brace in a namespace body clears only
the group buffer (when a group is open); when it closes the namespace
itself, the local and global buffers survive unchanged (and the group
buffer was already empty).  Hence a decorator buffered in one namespace and
not consumed there can attach to a page of a later namespace of the same
parse call, as the counterexample shows. -/
theorem claim_C5_amended (toks : List Tok) (i : Nat) (tok : Tok) (st : PSt)
    (props0 : Props) (i2 : Nat) (st2 : PSt)
    (hstate : st.state = .namespaceB) (hbrace : tok.val = "\x7d")
    (hstep : pstep toks i tok st props0 = .ok (.cont i2 st2)) :
    st2.decs = st.decs ∧ st2.globDecs = st.globDecs ∧ st2.groupDecs = []
    ∧ (st.groupDecs = [] → st2.state = .top) := by
  unfold pstep at hstep
  cases hns : st.ns with
  | none =>
    rw [hstate, hns] at hstep
    have h2 : (Except.error (.located tok.loc .invalidState) : Except PErr StepRes)
        = .ok (.cont i2 st2) := hstep
    exact absurd h2 (by simp)
  | some ns =>
    rw [hstate, hns] at hstep
    have hstep : pstepNs toks i tok st ns = .ok (.cont i2 st2) := hstep
    unfold pstepNs at hstep
    rw [if_pos (by simp [hbrace])] at hstep
    by_cases hg : st.groupDecs.length != 0
    · rw [if_pos hg] at hstep
      simp only [Except.ok.injEq, StepRes.cont.injEq] at hstep
      obtain ⟨h1, h2⟩ := hstep
      subst h2
      refine ⟨rfl, rfl, rfl, ?_⟩
      intro hge
      rw [hge] at hg
      simp at hg
    · rw [if_neg hg] at hstep
      simp only [Except.ok.injEq, StepRes.cont.injEq] at hstep
      obtain ⟨h1, h2⟩ := hstep
      subst h2
      have hge : st.groupDecs = [] := by simpa using hg
      exact ⟨rfl, rfl, hge, fun _ => rfl⟩

theorem claim_C5_witness :
    stC5r.decs = stC5.decs ∧ stC5r.globDecs = stC5.globDecs ∧ stC5r.groupDecs = []
    ∧ (stC5.groupDecs = [] → stC5r.state = .top) :=
  claim_C5_amended [tokCloseW] 0 tokCloseW stC5 [] 1 stC5r rfl rfl (by decide)

/-- C4 amended: a namespace-global decorator applies to the pages opened
after its declaration, not retroactively.  First conjunct: no parser step
removes a decorator from the global buffer (once declared with %% it
persists for the rest of the call).  Second conjunct: when a parser step
in a namespace body opens a page, the new page receives every decorator
currently in the global buffer.  Pages opened before the declaration do
not receive it, as the counterexample shows: a page decorator list is a
snapshot of the buffers at page-open time. -/
theorem pstepDecor_mono (toks : List Tok) (i : Nat) (tok : Tok) (st : PSt)
    (i2 : Nat) (st2 : PSt) (d : Dec)
    (h : pstepDecor toks i tok st = .ok (.cont i2 st2)) (hd : d ∈ st.globDecs) :
    d ∈ st2.globDecs ∧ st2.page = st.page ∧ st2.state = st.state := by
  unfold pstepDecor at h
  try dsimp only at h
  iterate 10 (all_goals try split at h)
  all_goals try (refine absurd h ?_; simp; done)
  all_goals
    (injection h with h3
     first
     | (injection h3 with h4 h5
        subst h5
        exact ⟨by simp [hd], by simp, by simp⟩)
     | injection h3)

theorem pstepTop_mono (toks : List Tok) (i : Nat) (tok : Tok) (st : PSt) (props0 : Props)
    (i2 : Nat) (st2 : PSt) (d : Dec)
    (h : pstepTop toks i tok st props0 = .ok (.cont i2 st2)) (hd : d ∈ st.globDecs) :
    d ∈ st2.globDecs ∧ st2.page = st.page := by
  unfold pstepTop at h
  try dsimp only at h
  iterate 10 (all_goals try split at h)
  all_goals try (refine absurd h ?_; simp; done)
  all_goals
    (injection h with h3
     first
     | (injection h3 with h4 h5
        subst h5
        exact ⟨by simp [hd], by simp⟩)
     | injection h3)

theorem pstepPage_mono (toks : List Tok) (i : Nat) (tok : Tok) (st : PSt)
    (ns : Namespace) (pg : Page) (i2 : Nat) (st2 : PSt) (d : Dec)
    (h : pstepPage toks i tok st ns pg = .ok (.cont i2 st2)) (hd : d ∈ st.globDecs) :
    d ∈ st2.globDecs := by
  unfold pstepPage at h
  try dsimp only at h
  iterate 10 (all_goals try split at h)
  all_goals try (refine absurd h ?_; simp; done)
  all_goals
    (injection h with h3
     first
     | (injection h3 with h4 h5
        subst h5
        simp [hd])
     | injection h3)

theorem pstepNs_mono (toks : List Tok) (i : Nat) (tok : Tok) (st : PSt) (ns : Namespace)
    (i2 : Nat) (st2 : PSt) (d : Dec)
    (h : pstepNs toks i tok st ns = .ok (.cont i2 st2)) (hd : d ∈ st.globDecs) :
    d ∈ st2.globDecs ∧ ∀ p, st2.page = some p → st.page = some p ∨ d ∈ p.decorators := by
  unfold pstepNs at h
  iterate 10 (all_goals try split at h)
  all_goals try (refine absurd h ?_; simp; done)
  all_goals first
  | (injection h with h3
     first
     | (injection h3 with h4 h5
        subst h5
        refine ⟨by simp [hd], ?_⟩
        intro p hp
        first
        | exact Or.inl hp
        | (refine Or.inr ?_
           obtain rfl := Option.some.inj hp
           simp [hd]))
     | injection h3)
  | (obtain ⟨h1, h2, _⟩ := pstepDecor_mono _ _ _ _ _ _ _ h hd
     exact ⟨h1, fun p hp => Or.inl (by rw [← h2]; exact hp)⟩)

/-- C4 amended: a namespace-global decorator applies to the pages opened
after its declaration, not retroactively.  First conjunct: no parser step
removes a decorator from the global buffer (once declared with %% it
persists for the rest of the call).  Second conjunct: when a parser step
in a namespace body opens a page (the only step that fills the page slot
while it is empty), the new page receives every decorator currently in
the global buffer.  Pages opened before the declaration do not receive
it, as the counterexample shows: a page decorator list is a snapshot of
the buffers at page-open time. -/
theorem claim_C4_amended (toks : List Tok) (i : Nat) (tok : Tok) (st : PSt)
    (props0 : Props) (i2 : Nat) (st2 : PSt) (d : Dec)
    (hstep : pstep toks i tok st props0 = .ok (.cont i2 st2)) (hd : d ∈ st.globDecs) :
    d ∈ st2.globDecs
    ∧ (st.state = .namespaceB → st.page = none → ∀ p, st2.page = some p →
        d ∈ p.decorators) := by
  unfold pstep at hstep
  cases hstate : st.state with
  | top =>
    rw [hstate] at hstep
    have h2 : pstepTop toks i tok st props0 = .ok (.cont i2 st2) := hstep
    obtain ⟨h1, _⟩ := pstepTop_mono _ _ _ _ _ _ _ _ h2 hd
    refine ⟨h1, ?_⟩
    intro hns
    simp at hns
  | namespaceB =>
    cases hns : st.ns with
    | none =>
      rw [hstate, hns] at hstep
      have h2 : (Except.error (.located tok.loc .invalidState) : Except PErr StepRes)
          = .ok (.cont i2 st2) := hstep
      exact absurd h2 (by simp)
    | some ns =>
      rw [hstate, hns] at hstep
      have h0 : pstepNs toks i tok st ns = .ok (.cont i2 st2) := hstep
      obtain ⟨h1, h2⟩ := pstepNs_mono _ _ _ _ _ _ _ _ h0 hd
      refine ⟨h1, ?_⟩
      intro _ hpage p hp
      rcases h2 p hp with hcase | hcase
      · rw [hpage] at hcase
        cases hcase
      · exact hcase
  | pageB =>
    cases hpg : st.page with
    | none =>
      rw [hstate, hpg] at hstep
      have h2 : (Except.error (.located tok.loc .invalidState) : Except PErr StepRes)
          = .ok (.cont i2 st2) := hstep
      exact absurd h2 (by simp)
    | some pg =>
      cases hns : st.ns with
      | none =>
        rw [hstate, hpg, hns] at hstep
        have h2 : (Except.error (.located tok.loc .invalidState) : Except PErr StepRes)
            = .ok (.cont i2 st2) := hstep
        exact absurd h2 (by simp)
      | some ns =>
        rw [hstate, hpg, hns] at hstep
        have h2 : pstepPage toks i tok st ns pg = .ok (.cont i2 st2) := hstep
        refine ⟨pstepPage_mono _ _ _ _ _ _ _ _ _ h2 hd, ?_⟩
        intro hnsB
        simp at hnsB

theorem claim_C4_witness :
    dWn2 ∈ stC3r.globDecs
    ∧ (stC3.state = .namespaceB → stC3.page = none → ∀ p, stC3r.page = some p →
        dWn2 ∈ p.decorators) :=
  claim_C4_amended [tokPageW, tokBraceW] 0 tokPageW stC3 [] 2 stC3r dWn2
    (by decide) (by decide)

/-! ### Tokenizing pure whitespace (claim C9) -/

theorem jsWS_not_op (c : Char) (h : jsWS c = true) : isOpChar c = false := by
  unfold jsWS at h
  simp only [Bool.or_eq_true, beq_iff_eq, Bool.and_eq_true, decide_eq_true_eq] at h
  rcases h with ((((((((((((((h|h)|h)|h)|h)|h)|h)|h)|⟨h1, h2⟩)|h)|h)|h)|h)|h)|h)
  all_goals try (subst h; decide)
  simp only [isOpChar, Bool.or_eq_false_iff, beq_eq_false_iff_ne, ne_eq]
  refine ⟨⟨⟨⟨⟨⟨⟨⟨?_, ?_⟩, ?_⟩, ?_⟩, ?_⟩, ?_⟩, ?_⟩, ?_⟩, ?_⟩ <;>
    (rintro rfl; exact absurd h1 (by decide))

theorem tkStep_ws (st : TkSt) (c : Char) (hbuf : st.buf = "") (hws : jsWS c = true) :
    (tkStep st c).toks = st.toks ∧ (tkStep st c).buf = "" := by
  have hop : isOpChar c = false := jsWS_not_op c hws
  unfold tkStep
  rw [hbuf]
  simp only [show ("" : String).data.head? = none from rfl]
  simp only [hop, hws]
  simp only [show (none == some (Char.ofNat 34)) = false from rfl]
  unfold pushtoken
  rw [hbuf]
  by_cases hnl : c == Char.ofNat 10 <;> simp [hnl, hbuf]

theorem foldl_ws : ∀ (cs : List Char), cs.all jsWS = true → ∀ st : TkSt, st.buf = "" →
    (cs.foldl tkStep st).toks = st.toks ∧ (cs.foldl tkStep st).buf = "" := by
  intro cs
  induction cs with
  | nil => intro _ st hbuf; exact ⟨rfl, hbuf⟩
  | cons c cs ih =>
    intro hall st hbuf
    simp only [List.all_cons, Bool.and_eq_true] at hall
    obtain ⟨h1, h2⟩ := tkStep_ws st c hbuf hall.1
    obtain ⟨h3, h4⟩ := ih hall.2 (tkStep st c) h2
    exact ⟨by rw [List.foldl_cons, h3, h1], by rw [List.foldl_cons, h4]⟩

theorem tokenize_ws (src : Source) (h : src.body.data.all jsWS = true) :
    ∃ t : Tok, tokenize src = [t] ∧ t.val = " " ∧ t.eof = true := by
  unfold tokenize
  obtain ⟨h1, h2⟩ := foldl_ws src.body.data h ⟨[], "", 0, 0⟩ rfl
  have hpt : pushtoken (src.body.data.foldl tkStep ⟨[], "", 0, 0⟩) ""
      = src.body.data.foldl tkStep ⟨[], "", 0, 0⟩ := by
    unfold pushtoken
    rw [h2]
    simp
  refine ⟨⟨" ", ⟨(src.body.data.foldl tkStep ⟨[], "", 0, 0⟩).col,
               (src.body.data.foldl tkStep ⟨[], "", 0, 0⟩).row, 1⟩, true⟩, ?_, rfl, rfl⟩
  show (pushtoken (List.foldl tkStep ⟨[], "", 0, 0⟩ src.body.data) "").toks
      ++ [⟨" ", ⟨(pushtoken (List.foldl tkStep ⟨[], "", 0, 0⟩ src.body.data) "").col,
                 (pushtoken (List.foldl tkStep ⟨[], "", 0, 0⟩ src.body.data) "").row, 1⟩, true⟩]
    = _
  rw [hpt, h1]
  rfl

/-- C9: for any Source containing no namespace declaration, parsing adds
no namespace: if the input consists only of whitespace, the token stream
is just the end-of-input token and parsing returns the empty document;
otherwise the first token exists (every token is a flushed non-whitespace
lexeme), and when it is not a namespace-header token parsing raises a
syntax error whose Location is that first token's location. -/
theorem claim_C9_no_namespace :
    (∀ src : Source, src.body.data.all jsWS = true → parseAdd src [] = .ok [])
    ∧ (∀ (src : Source) (tok : Tok) (rest : List Tok),
        tokenize src = tok :: rest → tok.eof = false → tok.isNamespace = false →
        parseAdd src [] = .error (.located tok.loc .expectedNamespaceDecl)) := by
  constructor
  · intro src hws
    obtain ⟨t, hts, hval, heof⟩ := tokenize_ws src hws
    have hnn : t.isNamespace = false := by
      unfold Tok.isNamespace
      rw [hval]
      decide
    unfold parseAdd
    rw [hts]
    show parseLoop [t] [] ([t].length + 1) 0 initPSt = _
    have hps : pstep [t] 0 t initPSt [] = .ok (.done []) := by
      unfold pstep initPSt
      dsimp only
      unfold pstepTop
      rw [if_neg (by simp [hnn]), if_pos heof]
    unfold parseLoop
    simp [tokAt, hps]
  · intro src tok rest htk heof hns
    unfold parseAdd
    rw [htk]
    show parseLoop (tok :: rest) [] ((tok :: rest).length + 1) 0 initPSt = _
    have hps : pstep (tok :: rest) 0 tok initPSt []
        = .error (.located tok.loc .expectedNamespaceDecl) := by
      unfold pstep initPSt
      dsimp only
      unfold pstepTop
      rw [if_neg (by simp [hns]), if_neg (by simp [heof])]
    show parseLoop (tok :: rest) [] (rest.length + 1 + 1) 0 initPSt = _
    unfold parseLoop
    simp [tokAt, hps]

theorem claim_C9_witness :
    parseAdd srcWs [] = .ok []
    ∧ parseAdd srcX [] = .error (.located ⟨1, 0, 1⟩ .expectedNamespaceDecl) :=
  ⟨claim_C9_no_namespace.1 srcWs (by decide),
   claim_C9_no_namespace.2 srcX ⟨"x", ⟨1, 0, 1⟩, false⟩
     [⟨" ", ⟨1, 0, 1⟩, true⟩] (by decide) (by decide) (by decide)⟩

/-! ### Resolution aborts at the first unknown name (claim C8) -/

theorem macroLoop_first_missing (reg : String → Option (Page → Dec → List DecStub)) :
    ∀ (S1 : List Dec) (S2 : List Dec) (m : Dec) (page : Page) (n : Nat),
      (∀ x ∈ S1, (reg x.name).isSome) → reg m.name = none →
      macroLoop reg (S1 ++ m :: S2) page n = .error (.unknownMacro m.name m.loc) := by
  intro S1
  induction S1 with
  | nil =>
    intro S2 m page n _ hm
    show macroLoop reg (m :: S2) page n = _
    unfold macroLoop
    rw [hm]
  | cons x S1 ih =>
    intro S2 m page n hall hm
    show macroLoop reg (x :: (S1 ++ m :: S2)) page n = _
    obtain ⟨f, hf⟩ := Option.isSome_iff_exists.mp (hall x (by simp))
    unfold macroLoop
    rw [hf]
    exact ih S2 m _ _ (fun y hy => hall y (by simp [hy])) hm

theorem invokeLoop_first_missing (reg : String → Option (Page → Dec → Props)) :
    ∀ (S1 : List Dec) (S2 : List Dec) (d : Dec) (p : Page),
      (∀ x ∈ S1, (reg x.name).isSome) → reg d.name = none →
      invokeLoop reg (S1 ++ d :: S2) p = .error (.unknownDecorator d.name d.loc) := by
  intro S1
  induction S1 with
  | nil =>
    intro S2 d p _ hd
    show invokeLoop reg (d :: S2) p = _
    unfold invokeLoop
    rw [hd]
  | cons x S1 ih =>
    intro S2 d p hall hd
    show invokeLoop reg (x :: (S1 ++ d :: S2)) p = _
    obtain ⟨f, hf⟩ := Option.isSome_iff_exists.mp (hall x (by simp))
    unfold invokeLoop
    rw [hf]
    exact ih S2 d _ (fun y hy => hall y (by simp [hy])) hd

theorem resolvePages_abort (lib : Lib) :
    ∀ (P1 P2 : List Page) (p : Page) (n : Nat) (r : List Page × Nat) (e : BErr),
      resolvePages lib P1 n = .ok r → resolvePage lib p r.2 = .error e →
      resolvePages lib (P1 ++ p :: P2) n = .error e := by
  intro P1
  induction P1 with
  | nil =>
    intro P2 p n r e h1 h2
    have hr : (([], n) : List Page × Nat) = r := by
      have : resolvePages lib [] n = .ok ([], n) := rfl
      rw [this] at h1
      exact Except.ok.inj h1
    show resolvePages lib (p :: P2) n = _
    unfold resolvePages
    rw [← hr] at h2
    rw [h2]
  | cons q P1 ih =>
    intro P2 p n r e h1 h2
    show resolvePages lib (q :: (P1 ++ p :: P2)) n = _
    unfold resolvePages at h1 ⊢
    match hq : resolvePage lib q n with
    | .error e2 => rw [hq] at h1; simp at h1
    | .ok (q2, n2) =>
      rw [hq] at h1
      dsimp only at h1 ⊢
      match hrest : resolvePages lib P1 n2 with
      | .error e2 => rw [hrest] at h1; simp at h1
      | .ok (ps, n3) =>
        rw [hrest] at h1
        dsimp only at h1
        have hr : ((q2 :: ps, n3) : List Page × Nat) = r := Except.ok.inj h1
        rw [ih P2 p n2 (ps, n3) e hrest (by rw [← hr] at h2; exact h2)]

theorem buildResolve_abort (lib : Lib) (loc : Loc) (nm : String) (pr : Props)
    (P1 P2 : List Page) (p : Page) (n : Nat) (r : List Page × Nat) (e : BErr)
    (h1 : resolvePages lib P1 n = .ok r) (h2 : resolvePage lib p r.2 = .error e) :
    buildResolve lib [⟨loc, nm, pr, P1 ++ p :: P2⟩] n = .error e := by
  unfold buildResolve
  rw [show Namespace.pages ⟨loc, nm, pr, P1 ++ p :: P2⟩ = P1 ++ p :: P2 from rfl]
  rw [resolvePages_abort lib P1 P2 p n r e h1 h2]

theorem protoDecC8_outside (nm : String) (h : ¬ nm ∈ objectProtoKeys) :
    protoDecC8 nm = none := by
  have hb : (nm == "constructor") = false := by
    rw [beq_eq_false_iff_ne]
    intro he
    subst he
    exact h (by decide)
  simp [protoDecC8, hb]

/-- C8 counterexample: the claim as stated is false on the code.  The only
decorator of the page is named constructor, a name absent from the empty
user-registered decorator registry, yet resolution raises no error and the
build completes with the page resolved normally: the property read on the
plain-object registry finds the inherited, truthy
Object.prototype.constructor (the Object function), so the
unknown-decorator guard does not fire and the inherited function is
invoked with its result discarded. -/
theorem claim_C8_counterexample :
    ownDecEmpty "constructor" = none
    ∧ buildResolve libCtor [⟨⟨0, 0, 1⟩, "ns", [], [pgCtor8]⟩] 0
        = .ok ([⟨⟨0, 0, 1⟩, "ns", [], [pgCtorR8]⟩], 0) :=
  ⟨rfl, by decide⟩

/-- C8 amended: when a page references a decorator or macro whose name is
absent from the user-registered entries of the corresponding registry and
is not one of the Object.prototype property names (for those names the
property read on the plain-object registry finds a truthy inherited value
and no error is raised), resolution raises an error carrying the offending
decorator record's own location (the location stored in the record at its
declaration), not the page's; the build aborts at the first offense, and
the pages after the failing one are never examined (the result is the same
error for every continuation of the page list).  The prototype sides are
any maps answering only at Object.prototype property names. -/
theorem claim_C8_amended :
    (∀ (own protoM : String → Option (Page → Dec → List DecStub))
        (S1 S2 : List Dec) (m : Dec) (page : Page) (n : Nat),
        (∀ nm, ¬ nm ∈ objectProtoKeys → protoM nm = none) →
        (∀ x ∈ S1, (jsLookup own protoM x.name).isSome) →
        own m.name = none → ¬ m.name ∈ objectProtoKeys →
        macroLoop (jsLookup own protoM) (S1 ++ m :: S2) page n
          = .error (.unknownMacro m.name m.loc))
    ∧ (∀ (own protoD : String → Option (Page → Dec → Props))
        (S1 S2 : List Dec) (d : Dec) (p : Page),
        (∀ nm, ¬ nm ∈ objectProtoKeys → protoD nm = none) →
        (∀ x ∈ S1, (jsLookup own protoD x.name).isSome) →
        own d.name = none → ¬ d.name ∈ objectProtoKeys →
        invokeLoop (jsLookup own protoD) (S1 ++ d :: S2) p
          = .error (.unknownDecorator d.name d.loc))
    ∧ (∀ (lib : Lib) (P1 P2 : List Page) (p : Page) (n : Nat) (r : List Page × Nat)
        (e : BErr),
        resolvePages lib P1 n = .ok r → resolvePage lib p r.2 = .error e →
        resolvePages lib (P1 ++ p :: P2) n = .error e)
    ∧ (∀ (lib : Lib) (loc : Loc) (nm : String) (pr : Props) (P1 P2 : List Page)
        (p : Page) (n : Nat) (r : List Page × Nat) (e : BErr),
        resolvePages lib P1 n = .ok r → resolvePage lib p r.2 = .error e →
        buildResolve lib [⟨loc, nm, pr, P1 ++ p :: P2⟩] n = .error e) := by
  refine ⟨?_, ?_, ?_, ?_⟩
  · intro own protoM S1 S2 m page n hp h1 h2 h3
    have hm : jsLookup own protoM m.name = none := by
      unfold jsLookup
      rw [h2]
      exact hp m.name h3
    exact macroLoop_first_missing (jsLookup own protoM) S1 S2 m page n h1 hm
  · intro own protoD S1 S2 d p hp h1 h2 h3
    have hd : jsLookup own protoD d.name = none := by
      unfold jsLookup
      rw [h2]
      exact hp d.name h3
    exact invokeLoop_first_missing (jsLookup own protoD) S1 S2 d p h1 hd
  · exact fun lib P1 P2 p n r e h1 h2 => resolvePages_abort lib P1 P2 p n r e h1 h2
  · exact fun lib loc nm pr P1 P2 p n r e h1 h2 =>
      buildResolve_abort lib loc nm pr P1 P2 p n r e h1 h2

theorem claim_C8_witness :
    macroLoop libC8.macros [dA8, dZ8] pgW8 0 = .error (.unknownMacro "zz" ⟨2, 3, 1⟩)
    ∧ invokeLoop libC8.decorators [dA8, dZ8] pgW8
        = .error (.unknownDecorator "zz" ⟨2, 3, 1⟩)
    ∧ resolvePages libC8 [pgOk8, pgBad8] 0 = .error (.unknownDecorator "zz" ⟨2, 3, 1⟩)
    ∧ buildResolve libC8 [⟨⟨0, 0, 1⟩, "ns", [], [pgOk8, pgBad8]⟩] 0
        = .error (.unknownDecorator "zz" ⟨2, 3, 1⟩) :=
  ⟨claim_C8_amended.1 ownMac8 protoMacC8 [dA8] [] dZ8 pgW8 0
     (fun _ _ => rfl) (by decide) rfl (by decide),
   claim_C8_amended.2.1 ownDec8 protoDecC8 [dA8] [] dZ8 pgW8
     (fun nm h => protoDecC8_outside nm h) (by decide) rfl (by decide),
   claim_C8_amended.2.2.1 libC8 [pgOk8] [] pgBad8 0 ([pgOk8r], 0)
     (.unknownDecorator "zz" ⟨2, 3, 1⟩) (by decide) (by decide),
   claim_C8_amended.2.2.2 libC8 ⟨0, 0, 1⟩ "ns" [] [pgOk8] [] pgBad8 0 ([pgOk8r], 0)
     (.unknownDecorator "zz" ⟨2, 3, 1⟩) (by decide) (by decide)⟩

/-! ### One-level macro expansion (claim C2) -/

theorem assignIds_spec : ∀ (stubs : List DecStub) (n : Nat),
    (assignIds stubs n).2 = n + stubs.length
    ∧ ((assignIds stubs n).1).map Dec.core = stubs
    ∧ ((assignIds stubs n).1).map Dec.id = List.range' n stubs.length := by
  intro stubs
  induction stubs with
  | nil => intro n; refine ⟨by simp [assignIds], by simp [assignIds], by simp [assignIds]⟩
  | cons s rest ih =>
    intro n
    obtain ⟨h1, h2, h3⟩ := ih (n+1)
    rcases hrec : assignIds rest (n+1) with ⟨ds, n2⟩
    rw [hrec] at h1 h2 h3
    refine ⟨?_, ?_, ?_⟩
    · show (assignIds (s :: rest) n).2 = _
      unfold assignIds
      rw [hrec]
      dsimp only at h1 ⊢
      simp only [List.length_cons]
      omega
    · show (assignIds (s :: rest) n).1.map Dec.core = _
      unfold assignIds
      rw [hrec]
      dsimp only at h2 ⊢
      rw [List.map_cons, h2]
      rfl
    · show (assignIds (s :: rest) n).1.map Dec.id = _
      unfold assignIds
      rw [hrec]
      dsimp only at h3 ⊢
      rw [List.map_cons, h3, List.length_cons, List.range'_succ]
      rfl

theorem findIdx_append_id (x : Dec) :
    ∀ (done : List Dec) (rest2 : List Dec) (i : Nat),
      (∀ y ∈ done, (y.id == x.id) = false) →
      (done ++ x :: rest2).findIdx? (fun y => y.id == x.id) i = some (i + done.length) := by
  intro done
  induction done with
  | nil =>
    intro rest2 i _
    simp [List.findIdx?_cons]
  | cons y done ih =>
    intro rest2 i hnotin
    have hy : (y.id == x.id) = false := hnotin y (by simp)
    show ((y :: (done ++ x :: rest2)).findIdx? (fun z => z.id == x.id) i) = _
    rw [List.findIdx?_cons]
    rw [if_neg (by simp [hy])]
    rw [ih rest2 (i+1) (fun z hz => hnotin z (by simp [hz]))]
    simp only [List.length_cons]
    rw [show i + 1 + done.length = i + (done.length + 1) from by omega]

theorem jsSplice_at (done rest2 items : List Dec) (x : Dec) :
    jsSplice (done ++ x :: rest2) (Int.ofNat done.length) items = done ++ items ++ rest2 := by
  have hlen : (done ++ x :: rest2).length = done.length + rest2.length + 1 := by
    simp only [List.length_append, List.length_cons]
    omega
  have hstart : jsSpliceStart (done ++ x :: rest2) (Int.ofNat done.length) = done.length := by
    unfold jsSpliceStart
    rw [if_neg (by simp)]
    have hs : (Int.ofNat done.length).toNat = done.length := rfl
    rw [hs]
    exact Nat.min_eq_left (by rw [hlen]; omega)
  unfold jsSplice
  rw [hstart]
  rw [show (done ++ x :: rest2).take done.length = done from List.take_left done (x :: rest2)]
  rw [List.drop_append_eq_append_drop]
  rw [show done.length + 1 - done.length = 1 from by omega]
  rw [List.drop_eq_nil_of_le (by omega)]
  simp

theorem flatMapCongr {α β : Type} (l : List α) (f g : α → List β)
    (h : ∀ x ∈ l, f x = g x) : l.flatMap f = l.flatMap g := by
  induction l with
  | nil => rfl
  | cons a l ih =>
    simp only [List.flatMap_cons]
    rw [h a (by simp), ih (fun x hx => h x (by simp [hx]))]

theorem coreExpand_indep (reg : String → Option (Page → Dec → List DecStub))
    (hindep : ∀ nm f, reg nm = some f → ∀ p q dx, f p dx = f q dx)
    (p q : Page) (d : Dec) : coreExpand reg p d = coreExpand reg q d := by
  unfold coreExpand
  by_cases hm : macFlag d
  · rw [if_pos hm, if_pos hm]
    cases hreg : reg d.name with
    | none => rfl
    | some f =>
      dsimp only
      rw [hindep _ _ hreg p q d]
  · rw [if_neg hm, if_neg hm]

theorem nodup_splice (done rest2 : List Dec) (x : Dec) (ds : List Dec) (n k : Nat)
    (hall : ∀ y ∈ done ++ x :: rest2, y.id < n)
    (hnd : ((done ++ x :: rest2).map Dec.id).Nodup)
    (hds : ds.map Dec.id = List.range' n k) :
    (((done ++ ds) ++ rest2).map Dec.id).Nodup
    ∧ (∀ y ∈ (done ++ ds) ++ rest2, y.id < n + k) := by
  rw [List.map_append, List.map_cons] at hnd
  obtain ⟨hA, hxC, hdisj⟩ := List.nodup_append.mp hnd
  have hC : (rest2.map Dec.id).Nodup := hxC.of_cons
  have hdone_lt : ∀ y ∈ done, y.id < n := fun y hy => hall y (by simp [hy])
  have hrest_lt : ∀ y ∈ rest2, y.id < n := fun y hy => hall y (by simp [hy])
  have hds_ge : ∀ y ∈ ds, n ≤ y.id ∧ y.id < n + k := by
    intro y hy
    have : y.id ∈ List.range' n k := by
      rw [← hds]
      exact List.mem_map_of_mem Dec.id hy
    exact List.mem_range'_1.mp this
  constructor
  · rw [List.map_append, List.map_append]
    refine List.Nodup.append ?_ ?_ ?_
    · refine List.Nodup.append hA (by rw [hds]; exact List.nodup_range' n k) ?_
      intro a haA haD
      obtain ⟨y, hy, rfl⟩ := List.mem_map.mp haA
      rw [hds] at haD
      have := (List.mem_range'_1.mp haD).1
      have := hdone_lt y hy
      omega
    · exact hC
    · intro a haAD haC
      obtain ⟨z, hz, rfl⟩ := List.mem_map.mp haC
      rcases List.mem_append.mp haAD with haA | haD
      · refine hdisj haA ?_
        simp only [List.mem_cons, List.mem_map]
        exact Or.inr ⟨z, hz, rfl⟩
      · rw [hds] at haD
        have := (List.mem_range'_1.mp haD).1
        have := hrest_lt z hz
        omega
  · intro y hy
    rcases List.mem_append.mp hy with hy2 | hyC
    · rcases List.mem_append.mp hy2 with hyA | hyD
      · have := hdone_lt y hyA; omega
      · exact (hds_ge y hyD).2
    · have := hrest_lt y hyC; omega

theorem macroLoop_cons_eq (reg : String → Option (Page → Dec → List DecStub))
    (m : Dec) (S : List Dec) (p : Page) (n : Nat) (f : Page → Dec → List DecStub)
    (hf : reg m.name = some f) :
    macroLoop reg (m :: S) p n
      = macroLoop reg S
          { p with decorators :=
              (jsSplice p.decorators (jsIndexOf p.decorators m.id) (assignIds (markNot m (f p m)) n).1) }
          (assignIds (markNot m (f p m)) n).2 := by
  conv_lhs => unfold macroLoop
  rw [hf]
  rfl

theorem macroLoop_go (reg : String → Option (Page → Dec → List DecStub))
    (hindep : ∀ nm f, reg nm = some f → ∀ p q dx, f p dx = f q dx) :
    ∀ (rest done : List Dec) (page : Page) (n : Nat),
      page.decorators = done ++ rest →
      (((done ++ rest).map Dec.id).Nodup) →
      (∀ y ∈ done ++ rest, y.id < n) →
      (∀ x ∈ rest, macFlag x = true → (reg x.name).isSome) →
      ∃ p2 n2, macroLoop reg (rest.filter (fun x => macFlag x)) page n = .ok (p2, n2)
        ∧ p2.decorators.map Dec.core
            = done.map Dec.core ++ rest.flatMap (coreExpand reg page)
        ∧ p2.props = page.props ∧ p2.name = page.name ∧ p2.path = page.path
        ∧ p2.loc = page.loc := by
  intro rest
  induction rest with
  | nil =>
    intro done page n hdec hnd hb hr
    refine ⟨page, n, rfl, ?_, rfl, rfl, rfl, rfl⟩
    simp [hdec]
  | cons x rest ih =>
    intro done page n hdec hnd hb hr
    by_cases hmac : macFlag x = true
    · obtain ⟨f, hf⟩ := Option.isSome_iff_exists.mp (hr x (by simp) hmac)
      rw [show (x :: rest).filter (fun y => macFlag y)
            = x :: rest.filter (fun y => macFlag y) from by simp [List.filter_cons, hmac]]
      rw [macroLoop_cons_eq reg x (rest.filter (fun y => macFlag y)) page n f hf]
      have hnotin : ∀ y ∈ done, (y.id == x.id) = false := by
        intro y hy
        rw [List.map_append, List.map_cons] at hnd
        have hdisj := List.disjoint_of_nodup_append hnd
        have hyA : y.id ∈ done.map Dec.id := List.mem_map_of_mem Dec.id hy
        have : y.id ∉ x.id :: rest.map Dec.id := hdisj hyA
        simp only [List.mem_cons, not_or] at this
        simp [this.1]
      have hidx : jsIndexOf page.decorators x.id = Int.ofNat done.length := by
        unfold jsIndexOf
        rw [hdec, findIdx_append_id x done rest 0 hnotin]
        simp
      rcases hA : assignIds (markNot x (f page x)) n with ⟨ds, n2⟩
      obtain ⟨hn2, hcore, hid⟩ := assignIds_spec (markNot x (f page x)) n
      rw [hA] at hn2 hcore hid
      dsimp only at hn2 hcore hid
      rw [hidx]
      dsimp only
      rw [hdec, jsSplice_at done rest ds x]
      have hsplit := nodup_splice done rest x ds n (markNot x (f page x)).length
        hb hnd hid
      obtain ⟨hnd2, hb2⟩ := hsplit
      obtain ⟨p2, n3, hrun, hcores, hp, hnm, hpa, hl⟩ :=
        ih (done ++ ds) { page with decorators := done ++ ds ++ rest } n2
          (by dsimp only)
          hnd2
          (by rw [hn2]; exact hb2)
          (fun y hy hm => hr y (by simp [hy]) hm)
      refine ⟨p2, n3, hrun, ?_, by rw [hp], by rw [hnm], by rw [hpa], by rw [hl]⟩
      rw [hcores]
      have hflat : rest.flatMap (coreExpand reg { page with decorators := done ++ ds ++ rest })
          = rest.flatMap (coreExpand reg page) :=
        flatMapCongr rest _ _ (fun y _ => coreExpand_indep reg hindep _ page y)
      rw [hflat]
      have hx : coreExpand reg page x = markNot x (f page x) := by
        unfold coreExpand
        rw [if_pos hmac, hf]
      rw [List.flatMap_cons, hx, List.map_append, hcore, List.append_assoc]
    · rw [show (x :: rest).filter (fun y => macFlag y)
            = rest.filter (fun y => macFlag y) from by simp [List.filter_cons, hmac]]
      obtain ⟨p2, n3, hrun, hcores, hp, hnm, hpa, hl⟩ :=
        ih (done ++ [x]) page n
          (by rw [hdec, List.append_assoc]; rfl)
          (by rw [List.append_assoc]; exact (by simpa using hnd))
          (by rw [List.append_assoc]; exact (by simpa using hb))
          (fun y hy hm => hr y (by simp [hy]) hm)
      refine ⟨p2, n3, hrun, ?_, hp, hnm, hpa, hl⟩
      rw [hcores]
      have hx : coreExpand reg page x = [x.core] := by
        unfold coreExpand
        rw [if_neg (by simp [hmac])]
      rw [List.flatMap_cons, hx, List.map_append, List.append_assoc]
      rfl

/-- C2: macro expansion during resolution is exactly one level deep: the
set of macro-flagged decorators is the snapshot taken from the page
decorator list before any expansion, each such macro is looked up and
expanded exactly once and replaced in place by its returned stubs, the
stubs are never re-scanned for further macro expansion (even when a stub
name matches a registered macro), and a negated macro propagates the
negated flag onto every stub it produced.  Stated, for page-independent
macro implementations, as: the loop over the snapshot returns a page
whose identity-erased decorator list is exactly the one-level spec
expansion of the original list, and the other page fields are
untouched. -/
theorem claim_C2_macro_one_level (reg : String → Option (Page → Dec → List DecStub))
    (page : Page) (n : Nat)
    (hnd : (page.decorators.map Dec.id).Nodup)
    (hbound : ∀ y ∈ page.decorators, y.id < n)
    (hreg : ∀ x ∈ page.decorators, macFlag x = true → (reg x.name).isSome)
    (hindep : ∀ nm f, reg nm = some f → ∀ p q dx, f p dx = f q dx) :
    (macroLoop reg (page.decorators.filter (fun x => macFlag x)) page n).toOption.map
        (fun r => r.1.decorators.map Dec.core)
      = some (macroExpandSpecCore reg page)
    ∧ (macroLoop reg (page.decorators.filter (fun x => macFlag x)) page n).toOption.map
        (fun r => (r.1.props, r.1.name, r.1.path, r.1.loc))
      = some (page.props, page.name, page.path, page.loc) := by
  obtain ⟨p2, n2, hrun, hcores, hp, hnm, hpa, hl⟩ :=
    macroLoop_go reg hindep page.decorators [] page n rfl (by simpa using hnd)
      (by simpa using hbound) hreg
  rw [hrun]
  unfold macroExpandSpecCore
  constructor
  · show some (p2.decorators.map Dec.core) = _
    rw [hcores]
    simp
  · show some (p2.props, p2.name, p2.path, p2.loc) = _
    rw [hp, hnm, hpa, hl]

theorem claim_C2_witness :
    (macroLoop regC2 (pgC2.decorators.filter (fun x => macFlag x)) pgC2 100).toOption.map
        (fun r => r.1.decorators.map Dec.core)
      = some [⟨⟨1, 0, 1⟩, "a", [], [("__not", .bool true)]⟩,
              ⟨⟨1, 0, 1⟩, "b", [], [("__not", .bool true)]⟩,
              ⟨⟨6, 0, 1⟩, "k", [], []⟩] :=
  ((claim_C2_macro_one_level regC2 pgC2 100 (by decide) (by decide) (by decide)
    (by
      intro nm f h p q dx
      unfold regC2 at h
      split at h
      · cases h; rfl
      · cases h)).1).trans (by decide)

end Pagez
